import Mathlib

/-!
Verification of the output-aggregation engine of the slurm_scripts
repository (gather_array_job_output.py and gather_all_array_job_output.py).

The Python code is shallowly embedded: each Python function becomes a Lean
definition over explicit data (file contents are lists of lines, dicts are
insertion-ordered association lists, stderr output is an accumulated list of
warning strings, abnormal termination is an explicit error value).

Modelling conventions, stated once here:
* Python floats are modelled exactly: a finite float is carried as the exact
  rational denoted by its source text (IEEE-754 rounding of decimal literals
  is abstracted away; no claim below depends on rounding), and the
  non-finite values keep their own constructors.
* Character classes of the two regular expressions and of str.strip are the
  ASCII ones; the inputs of interest contain only ASCII.
* Abnormal termination of the Python code (an uncaught exception) is the
  explicit value Except.error; a Python function returning None is
  Except.ok none.
-/

/-- The value of a Python float: a finite value carried as an exact rational,
a signed infinity, or nan.  gather_array_job_output.py stores such values in
params and records. -/
inductive PFloat where
  | num (q : ℚ)
  | inf (neg : Bool)
  | nan
deriving DecidableEq, Repr

/-- DataValue = Union[str, int, float] from gather_array_job_output.py. -/
inductive DataValue where
  | int (n : ℤ)
  | float (f : PFloat)
  | str (s : String)
deriving DecidableEq, Repr

/-- A Python dict with String keys, modelled as an insertion-ordered
association list: assignment updates in place or appends. -/
abbrev Dict (α : Type) := List (String × α)

/-- Python `d[k] = v`: update the existing binding in place, else append. -/
def dinsert (d : Dict α) (k : String) (v : α) : Dict α :=
  match d with
  | [] => [(k, v)]
  | (k', v') :: rest => if k' = k then (k, v) :: rest else (k', v') :: dinsert rest k v

/-- Python `d.get(k)` / `k in d`. -/
def dget (d : Dict α) (k : String) : Option α :=
  match d with
  | [] => none
  | (k', v) :: rest => if k' = k then some v else dget rest k

/-- Python `d.keys()` in insertion order. -/
def dkeys (d : Dict α) : List String := d.map Prod.fst

/-- Python `{**a, **b}`: start from a, assign every binding of b in order. -/
def dmerge (a b : Dict α) : Dict α :=
  b.foldl (fun acc kv => dinsert acc kv.1 kv.2) a

/-- The whitespace class of Python str.strip (ASCII part). -/
def pyWS (c : Char) : Bool :=
  c = ' ' || c = '\t' || c = '\n' || c = '\x0d' || c = '\x0b' || c = '\x0c'

/-- Python str.strip(): remove leading and trailing whitespace. -/
def pyStrip (s : String) : String :=
  String.mk (((s.data.dropWhile pyWS).reverse.dropWhile pyWS).reverse)

/-- Length of a Python str in characters. -/
def pyLen (s : String) : Nat := s.data.length

/-- A run of ASCII digits possibly separated by single underscores, as
accepted inside Python int() and float() literals (PEP 515).  Returns the
digits with underscores removed, and the unconsumed rest. -/
def digitRunGo (c : Char) : List Char → List Char × List Char
  | '_' :: d :: rest3 =>
    if d.isDigit then
      let (ds, r) := digitRunGo d rest3
      (c :: ds, r)
    else ([c], '_' :: d :: rest3)
  | ['_'] => ([c], ['_'])
  | d :: rest2 =>
    if d.isDigit then
      let (ds, r) := digitRunGo d rest2
      (c :: ds, r)
    else ([c], d :: rest2)
  | [] => ([c], [])

def digitRun : List Char → List Char × List Char
  | [] => ([], [])
  | c :: rest => if c.isDigit then digitRunGo c rest else ([], c :: rest)

/-- Numeric value of a digit list. -/
def natVal (ds : List Char) : Nat :=
  ds.foldl (fun acc c => 10 * acc + (c.toNat - '0'.toNat)) 0

/-- Python int(s) for a str argument: optional surrounding whitespace, an
optional sign, then a digit run (single underscores between digits allowed)
covering the whole remainder. -/
def pyIntParse (s : String) : Option ℤ :=
  let cs := (pyStrip s).data
  let (sgn, cs1) : ℤ × List Char :=
    match cs with
    | '+' :: r => (1, r)
    | '-' :: r => (-1, r)
    | r => (1, r)
  match digitRun cs1 with
  | (ds, []) => if ds = [] then none else some (sgn * (natVal ds : ℤ))
  | _ => none

/-- Python float(s) for a str argument: optional surrounding whitespace and
sign, then inf/infinity/nan (case-insensitive) or a decimal literal
digits [. digits] [exponent], with at least one digit, underscores between
digits allowed.  Finite results are the exact rational value of the text. -/
def pyFloatParse (s : String) : Option PFloat :=
  let cs := (pyStrip s).data
  let (neg, cs1) : Bool × List Char :=
    match cs with
    | '+' :: r => (false, r)
    | '-' :: r => (true, r)
    | r => (false, r)
  let low := String.mk (cs1.map Char.toLower)
  if low = "inf" || low = "infinity" then some (.inf neg)
  else if low = "nan" then some .nan
  else
    let (ip, r1) := digitRun cs1
    let (fp, r2) : List Char × List Char :=
      match r1 with
      | '.' :: r => digitRun r
      | r => ([], r)
    if ip = [] && fp = [] then none
    else
      let (eOk, eVal, r3) : Bool × ℤ × List Char :=
        match r2 with
        | 'e' :: r | 'E' :: r =>
          let (esgn, r') : ℤ × List Char :=
            match r with
            | '+' :: t => (1, t)
            | '-' :: t => (-1, t)
            | t => (1, t)
          match digitRun r' with
          | (ds, rest) => if ds = [] then (false, 0, rest) else (true, esgn * (natVal ds : ℤ), rest)
        | r => (true, 0, r)
      if eOk && r3 = [] then
        let m : Nat := natVal (ip ++ fp)
        let e : ℤ := eVal - fp.length
        let mag : ℚ := if 0 ≤ e then mkRat (m * 10 ^ e.toNat : ℕ) 1 else mkRat m (10 ^ (-e).toNat)
        some (.num (if neg then -mag else mag))
      else none

/-- The quote test of parse_value: length at least 2 and the first
character a quote equal to the last. -/
def quotedTok (s : String) : Bool :=
  match s.data with
  | c :: d :: rest =>
    (c = '\'' || c = '"') && c = List.getLast (d :: rest) (List.cons_ne_nil d rest)
  | _ => false

/-- parse_value from gather_all_array_job_output.py: strip matching outer
quotes, else try int, else float, else keep the str. -/
def parse_value (s : String) : DataValue :=
  if quotedTok s then .str (String.mk s.data.tail.dropLast)
  else
    match pyIntParse s with
    | some n => .int n
    | none =>
      match pyFloatParse s with
      | some f => .float f
      | none => .str s

/-- The integer grammar named by the specification: an optional leading
sign followed by digits only. -/
def specIntTok (s : String) : Bool :=
  match s.data with
  | '+' :: r | '-' :: r => r ≠ [] && r.all Char.isDigit
  | r => r ≠ [] && r.all Char.isDigit

/-! ### The two regular expressions of gather_array_job_output.py

`param_regex  = --(\w[^\s=]*)=(\S+)`
`float_regex  = [-+]? (?:(?: \d* \. \d+ ) | (?: \d+ \.? )) (?: [Ee] [+-]? \d+ )?`

Both are modelled by hand-rolled matchers following Python re semantics at
each position (leftmost match, first-alternative preference, greedy
repetition; both patterns are backtracking-free, as each greedy repetition
is followed by a character its class excludes).  findall scans left to
right, resuming after each (always non-empty) match, else advancing one
character.  The scanners take fuel, always called with enough for the whole
string. -/

/-- Python `\w`, ASCII part. -/
def isWordChar (c : Char) : Bool := c.isAlphanum || c = '_'

/-- Python `\s`, ASCII part. -/
def isPySpace (c : Char) : Bool := pyWS c

/-- Attempt to match `(\w[^\s=]*)=(\S+)` (the part of param_regex after the
literal dashes) at the head of the input.  Returns the two groups and the
rest of the input after the match. -/
def paramTry : List Char → Option (String × String × List Char)
  | [] => none
  | c :: cs =>
    if isWordChar c then
      let nmRest := cs.takeWhile (fun ch => !isPySpace ch && ch != '=')
      let r1 := cs.dropWhile (fun ch => !isPySpace ch && ch != '=')
      match r1 with
      | '=' :: r2 =>
        let val := r2.takeWhile (fun ch => !isPySpace ch)
        let r3 := r2.dropWhile (fun ch => !isPySpace ch)
        match val with
        | [] => none
        | v :: vs => some (String.mk (c :: nmRest), String.mk (v :: vs), r3)
      | _ => none
    else none

/-- One findall step for param_regex: at `'-' :: '-' :: rest2` try the
group part; on failure or elsewhere advance one character. -/
def paramScanF : Nat → List Char → List (String × String)
  | 0, _ => []
  | _ + 1, [] => []
  | fuel + 1, a :: rest =>
    if a = '-' then
      match rest with
      | b :: rest2 =>
        if b = '-' then
          match paramTry rest2 with
          | some (n, v, rest') => (n, v) :: paramScanF fuel rest'
          | none => paramScanF fuel rest
        else paramScanF fuel rest
      | [] => []
    else paramScanF fuel rest

/-- Python `param_regex.findall(line)`. -/
def paramFindall (s : String) : List (String × String) :=
  paramScanF (s.data.length + 1) s.data

/-- Attempt to match float_regex at the head of the input.  Returns the
matched text and the rest.  Mirrors the pattern: optional sign, then the
first alternative `\d* \. \d+` if it fits, else `\d+ \.?`, then an optional
exponent `[Ee] [+-]? \d+`. -/
def floatTry (l : List Char) : Option (List Char × List Char) :=
  let (sgn, l1) : List Char × List Char :=
    match l with
    | '+' :: r => (['+'], r)
    | '-' :: r => (['-'], r)
    | r => ([], r)
  let d1 := l1.takeWhile Char.isDigit
  let r1 := l1.dropWhile Char.isDigit
  let body : Option (List Char × List Char) :=
    match r1 with
    | '.' :: r2 =>
      let d2 := r2.takeWhile Char.isDigit
      let r3 := r2.dropWhile Char.isDigit
      if d2 = [] then
        -- first alternative needs a digit after the dot; second needs a
        -- digit before it, then consumes the dot
        if d1 = [] then none else some (d1 ++ ['.'], r2)
      else some (d1 ++ '.' :: d2, r3)
    | _ => if d1 = [] then none else some (d1, r1)
  match body with
  | none => none
  | some (b, r) =>
    let (ex, r') : List Char × List Char :=
      match r with
      | e :: rest =>
        if e = 'e' || e = 'E' then
          let (es, restS) : List Char × List Char :=
            match rest with
            | '+' :: t => (['+'], t)
            | '-' :: t => (['-'], t)
            | t => ([], t)
          let d3 := restS.takeWhile Char.isDigit
          let r4 := restS.dropWhile Char.isDigit
          if d3 = [] then ([], e :: rest) else (e :: es ++ d3, r4)
        else ([], e :: rest)
      | [] => ([], [])
    some (sgn ++ b ++ ex, r')

/-- One findall step for float_regex: match at this position or advance one
character. -/
def floatScanF : Nat → List Char → List String
  | 0, _ => []
  | _ + 1, [] => []
  | fuel + 1, l@(_ :: rest) =>
    match floatTry l with
    | some (m, rest') => String.mk m :: floatScanF fuel rest'
    | none => floatScanF fuel rest

/-- Python `float_regex.findall(line)`. -/
def floatFindall (s : String) : List String :=
  floatScanF (s.data.length + 1) s.data

/-! ### file_data (gather_array_job_output.py lines 102-149) -/

/-- An uncaught Python exception. -/
inductive PyErr where
  | indexError
deriving DecidableEq, Repr

instance {ε α : Type} [DecidableEq ε] [DecidableEq α] : DecidableEq (Except ε α) :=
  fun x y =>
    match x, y with
    | .ok a, .ok b => if h : a = b then .isTrue (by rw [h]) else .isFalse (by simp [h])
    | .error a, .error b => if h : a = b then .isTrue (by rw [h]) else .isFalse (by simp [h])
    | .ok _, .error _ => .isFalse (by simp)
    | .error _, .ok _ => .isFalse (by simp)

/-- OutputFileRawData from gather_array_job_output.py.  The command field is
Option String: the code stores None when no comment line is seen. -/
structure OutputFileRawData where
  command : Option String
  params : Dict DataValue
  data_lines : List String
deriving DecidableEq, Repr

/-- The int-then-float conversion applied to each parameter setting in
file_data (lines 139-145): try int, then float, else keep the str. -/
def paramVal (s : String) : DataValue :=
  match pyIntParse s with
  | some n => .int n
  | none =>
    match pyFloatParse s with
    | some f => .float f
    | none => .str s

/-- The inner loop of file_data over the matches of one header line (lines
133-146).  none models the `return None` on an empty name or setting. -/
def paramFold : List (String × String) → Dict DataValue → Option (Dict DataValue)
  | [], p => some p
  | (name, setting) :: rest, p =>
    if name = "" || setting = "" then none
    else paramFold rest (dinsert p name (paramVal setting))

/-- The header loop of file_data (lines 120-146) over stripped lines:
skip blanks, stop at the first line not starting with the comment marker,
take the command from the first comment line (re-taken while the stored
command is falsy, i.e. None or empty), scan later comment lines for
parameter tokens.  none models `return None`. -/
def headerScan : List String → Option String → Dict DataValue →
    Option (Option String × Dict DataValue)
  | [], c, p => some (c, p)
  | l :: ls, c, p =>
    if l = "" then headerScan ls c p
    else if l.data.head? ≠ some '#' then some (c, p)
    else if (c.getD "") = "" then headerScan ls (some (pyStrip (String.mk l.data.tail))) p
    else
      match paramFold (paramFindall l) p with
      | none => none
      | some p' => headerScan ls c p'

/-- The body-lines comprehension `[line for line in lines if line[0] != "#"]`
(line 149): evaluated left to right over all stripped lines; an empty line
makes `line[0]` raise IndexError. -/
def bodyLines : List String → Except PyErr (List String)
  | [] => .ok []
  | l :: ls =>
    match l.data with
    | [] => .error .indexError
    | c :: _ =>
      if c ≠ '#' then (bodyLines ls).map (l :: ·)
      else bodyLines ls

/-- file_data: strip every line, run the header loop (its `return None` is
Except.ok none), then build the body lines (which can raise IndexError on a
blank line).  The input is the file content as a list of raw lines. -/
def file_data (rawLines : List String) : Except PyErr (Option OutputFileRawData) :=
  let lines := rawLines.map pyStrip
  match headerScan lines none [] with
  | none => .ok none
  | some (c, p) => (bodyLines lines).map (fun bls => some ⟨c, p, bls⟩)

/-! ### last_value (gather_array_job_output.py lines 245-269) -/

/-- The loop of last_value: scan (already reversed) lines, skip blank and
comment lines, and on the first line whose float_regex findall is nonempty
take the float value of the last match. -/
def lastValueScan : List String → Option ℚ
  | [] => none
  | l :: ls =>
    let t := pyStrip l
    if t = "" then lastValueScan ls
    else if t.data.head? = some '#' then lastValueScan ls
    else
      match floatFindall t with
      | [] => lastValueScan ls
      | m :: ms =>
        some (match pyFloatParse (List.getLast (m :: ms) (List.cons_ne_nil m ms)) with
              | some (.num q) => q
              | _ => 0)

/-- Column name given to values extracted from output. -/
def VALUE_NAME : String := "Exploitability"

/-- last_value: the final `if not value: return []` treats both None and the
float 0.0 as falsy, so a parsed 0.0 yields the empty list. -/
def last_value (data_lines : List String) (value_name : String := VALUE_NAME) :
    List (Dict DataValue) :=
  match lastValueScan data_lines.reverse with
  | none => []
  | some v => if v = 0 then [] else [[(value_name, DataValue.float (.num v))]]

/-! ### output_data (gather_array_job_output.py lines 152-194)

Each file is given by its content (the list of its raw lines); the
`assert file_path.is_file()` and the reading of the file are replaced by
that content.  Messages printed to stderr are accumulated in a warning
list (with the file-path argument of a print elided, since paths are not
part of the model).  The `if values_list is None: return None` branch
cannot fire for the total extractor functions of this model and is
omitted. -/

/-- OutputData from gather_array_job_output.py. -/
structure OutputData where
  command : Option String
  parameter_names : List String
  value_names : List String
  records : List (Dict DataValue)
deriving DecidableEq, Repr

/-- The warning printed at line 176. -/
def cmdMismatchMsg : String := "Warning: command mismatch between output files"

/-- The warning printed at line 182 (file path elided). -/
def noValuesMsg : String := "Warning: no values found for output"

/-- The warning printed at lines 191-192 (file path elided). -/
def overlapMsg : String := "Warning: overlap between parameter and value names in"

/-- Append each name not yet present (lines 183-185 and 187-189). -/
def addNames (names seen : List String) : List String :=
  names.foldl (fun acc n => if n ∈ acc then acc else acc ++ [n]) seen

/-- The loop state of output_data. -/
structure AggState where
  records : List (Dict DataValue)
  parameter_names : List String
  value_names : List String
  command : Option String
  warnings : List String
deriving Repr

/-- The body of `for values in values_list` (lines 186-193): extend
value_names, warn on a params/values key overlap, append the merged
record. -/
def valuesStep (params : Dict DataValue) (st : List String × List String × List (Dict DataValue))
    (values : Dict DataValue) : List String × List String × List (Dict DataValue) :=
  (addNames (dkeys values) st.1,
   if (dkeys params).any (fun k => (dget values k).isSome) then st.2.1 ++ [overlapMsg] else st.2.1,
   st.2.2 ++ [dmerge params values])

/-- The state after processing one successfully parsed file (lines
175-193): the command-mismatch warning against the previous command, the
unconditional command overwrite, the no-values warning, the
parameter-name extension, and the fold over the extracted data points. -/
def warnStep (w : List String) (cmd dcmd : Option String) : List String :=
  match cmd with
  | none => w
  | some c => if dcmd ≠ some c then w ++ [cmdMismatchMsg] else w

def nextState (extractor : List String → List (Dict DataValue))
    (st : AggState) (data : OutputFileRawData) : AggState :=
  let warns1 := warnStep st.warnings st.command data.command
  let values_list := extractor data.data_lines
  let warns2 := if values_list = [] then warns1 ++ [noValuesMsg] else warns1
  let res := values_list.foldl (valuesStep data.params) (st.value_names, warns2, st.records)
  ⟨res.2.2, addNames (dkeys data.params) st.parameter_names, res.1, data.command, res.2.1⟩

/-- The loop of output_data over the remaining files. -/
def outputDataAux (extractor : List String → List (Dict DataValue)) :
    List (List String) → AggState → Except PyErr (Option (OutputData × List String))
  | [], st => .ok (some (⟨st.command, st.parameter_names, st.value_names, st.records⟩,
                         st.warnings))
  | f :: fs, st =>
    match file_data f with
    | .error e => .error e
    | .ok none => .ok none
    | .ok (some data) => outputDataAux extractor fs (nextState extractor st data)

/-- output_data: fold the files through the loop starting from the empty
dataset.  The result carries the dataset together with the warnings
printed on the way; None (a hard failure in file_data) and an uncaught
exception abort the whole aggregation. -/
def output_data (files : List (List String))
    (extractor : List String → List (Dict DataValue)) :
    Except PyErr (Option (OutputData × List String)) :=
  outputDataAux extractor files ⟨[], [], [], none, []⟩

/-! ### write_data (gather_array_job_output.py lines 197-242)

Python comparisons on the scalar values, as used by sorted() on the
itemgetter key tuples: int and float compare numerically (exactly), str
compares lexicographically by code point, nan compares false against
everything.  A str-number comparison raises TypeError in Python; the
model returns false there, which is only reachable for datasets outside
the homogeneity hypotheses of the theorems below. -/

/-- Python `<` on float values. -/
def pfLT : PFloat → PFloat → Bool
  | .nan, _ => false
  | _, .nan => false
  | .inf true, .inf true => false
  | .inf true, _ => true
  | _, .inf true => false
  | .inf false, _ => false
  | .num _, .inf false => true
  | .num a, .num b => a < b

/-- Python `==` on float values (nan is not equal to itself). -/
def pfEq : PFloat → PFloat → Bool
  | .num a, .num b => a == b
  | .inf a, .inf b => a == b
  | _, _ => false

/-- Python `<` on scalar values. -/
def pyLT : DataValue → DataValue → Bool
  | .int a, .int b => a < b
  | .int a, .float g => pfLT (.num a) g
  | .float f, .int b => pfLT f (.num b)
  | .float f, .float g => pfLT f g
  | .str s, .str t => s < t
  | _, _ => false

/-- Python `==` on scalar values. -/
def pyEq : DataValue → DataValue → Bool
  | .int a, .int b => a == b
  | .int a, .float g => pfEq (.num a) g
  | .float f, .int b => pfEq f (.num b)
  | .float f, .float g => pfEq f g
  | .str s, .str t => s == t
  | _, _ => false

/-- Python `<=` on key tuples (lexicographic; a strict prefix is smaller). -/
def tupLE : List DataValue → List DataValue → Bool
  | [], _ => true
  | _ :: _, [] => false
  | a :: as, b :: bs => pyLT a b || (pyEq a b && tupLE as bs)

/-- Insert into an ascending list (the model of Python sorted(); any
correct ascending sort gives the rendered output of write_data under the
theorems' hypotheses, where tied records render identically). -/
def insertAsc (le : α → α → Bool) (a : α) : List α → List α
  | [] => [a]
  | b :: bs => if le a b then a :: b :: bs else b :: insertAsc le a bs

/-- Ascending insertion sort. -/
def sortAsc (le : α → α → Bool) : List α → List α
  | [] => []
  | a :: as => insertAsc le a (sortAsc le as)

/-- Column order: `columns = data.parameter_names` then
`columns += [x for x in data.value_names if x not in columns]`
(lines 208-209); the comprehension is evaluated against the parameter
names before the extension. -/
def columnsOf (d : OutputData) : List String :=
  d.parameter_names ++ d.value_names.filter (fun x => !(x ∈ d.parameter_names))

/-- `max_width = max(max(len(c) for c in columns), 7)` (lines 211-212). -/
def maxWidth (cols : List String) : Nat :=
  max (cols.foldl (fun m c => max m (pyLen c)) 0) 7

def spaces (n : Nat) : String := String.mk (List.replicate n ' ')

/-- The str format of write_data at width W (format spec W.W): truncate to
W characters, left-justify to W. -/
def fmtStr (w : Nat) (s : String) : String :=
  let t := String.mk (s.data.take w)
  t ++ spaces (w - pyLen t)

/-- Right-justify to width w (Python default alignment for numbers). -/
def padNum (w : Nat) (s : String) : String := spaces (w - pyLen s) ++ s

/-- Whether the positive fraction n / d is below 10 ^ c. -/
def fracLtPow10 (n d : ℕ) (c : ℤ) : Bool :=
  if 0 ≤ c then n < d * 10 ^ c.toNat else n * 10 ^ (-c).toNat < d

/-- floor(log10 n) for a positive natural, as one less than the decimal
digit count. -/
def log10 (n : ℕ) : ℕ := (Nat.toDigits 10 n).length - 1

/-- floor(log10 (n / d)) for a positive fraction, with a one-step
correction. -/
def decExp (n d : ℕ) : ℤ :=
  let c : ℤ := (log10 n : ℤ) - (log10 d : ℤ)
  if fracLtPow10 n d c then c - 1 else c

/-- Round the nonnegative fraction n / d to the nearest integer, ties to
even. -/
def rheNat (n d : ℕ) : ℕ :=
  let q := n / d
  let r := n % d
  if 2 * r < d then q
  else if d < 2 * r then q + 1
  else if q % 2 = 0 then q else q + 1

/-- Round (n / d) * 10 ^ k to the nearest integer, ties to even. -/
def rheScaled (n d : ℕ) (k : ℤ) : ℕ :=
  if 0 ≤ k then rheNat (n * 10 ^ k.toNat) d else rheNat n (d * 10 ^ (-k).toNat)

/-- The CPython formatting of a float f under format spec .P (an explicit
precision P with the empty presentation type): round to P significant
decimal digits (ties to even), use scientific form when the rounded
decimal exponent is below -4 or at least P - 1, strip trailing fractional
zeros, and keep at least one fractional digit in a fixed-point result.
The decimal rounding is performed on the exact rational carried by the
model. -/
def gfmt (p : Nat) : PFloat → String
  | .inf neg => if neg then "-inf" else "inf"
  | .nan => "nan"
  | .num q =>
    if q.num = 0 then "0.0"
    else
      let n := q.num.natAbs
      let d := q.den
      let e0 := decExp n d
      let m0 := rheScaled n d ((p : ℤ) - 1 - e0)
      let m := if m0 = 10 ^ p then 10 ^ (p - 1) else m0
      let e : ℤ := if m0 = 10 ^ p then e0 + 1 else e0
      let ds := (toString m).data
      let sign := if q.num < 0 then "-" else ""
      if e < -4 || (p : ℤ) - 1 ≤ e then
        -- scientific: d[.ddd]e±XX
        let frac := (ds.drop 1).reverse.dropWhile (· = '0') |>.reverse
        let mant := String.mk (ds.take 1) ++
          (if frac = [] then "" else "." ++ String.mk frac)
        let eAbs := e.natAbs
        let eStr := if eAbs < 10 then "0" ++ toString eAbs else toString eAbs
        sign ++ mant ++ "e" ++ (if e < 0 then "-" else "+") ++ eStr
      else if e < 0 then
        -- 0.00ddd with -e-1 leading zeros
        let frac := ds.reverse.dropWhile (· = '0') |>.reverse
        sign ++ "0." ++ String.mk (List.replicate (e.natAbs - 1) '0') ++ String.mk frac
      else
        -- fixed point with e+1 integer digits
        let ip := ds.take (e.toNat + 1)
        let frac := (ds.drop (e.toNat + 1)).reverse.dropWhile (· = '0') |>.reverse
        sign ++ String.mk ip ++ "." ++ (if frac = [] then "0" else String.mk frac)

/-- Render one cell at width w: format_str / format_float / format_int of
write_data (lines 217-227); an int whose decimal form does not fit is
re-rendered through the float format with precision w - 3. -/
def renderCell (w : Nat) : DataValue → String
  | .str s => fmtStr w s
  | .float f => padNum w (gfmt (w - 3) f)
  | .int i =>
    let s := toString i
    if pyLen s ≤ w then padNum w s
    else padNum w (gfmt (w - 3) (.num (i : ℚ)))

/-- The itemgetter key tuple of a record over the columns; rendering uses
`record.get(column, "N/A")`, and in the branch of write_data where records
are actually rendered every column is present, so the default never
materializes in a sort key (itemgetter would have raised KeyError first). -/
def recKey (cols : List String) (r : Dict DataValue) : List DataValue :=
  cols.map (fun c => (dget r c).getD (.str "N/A"))

/-- Render one record line (lines 231-242). -/
def renderRow (w : Nat) (vs : List DataValue) : String :=
  String.intercalate (" ") (vs.map (renderCell w))

/-- write_data.  The first component is the list of printed lines, or none
when the Python call dies with an exception: operator.itemgetter needs at
least one column (TypeError on an empty schema, and max() over no columns
raises ValueError), and itemgetter raises KeyError when a record misses a
column.  The second component is the dataset as left behind by the call:
`columns = data.parameter_names` aliases the list stored in the dataset,
so `columns += [...]` (line 209) extends data.parameter_names in place
before any of those failures can occur. -/
def write_data (d : OutputData) : Option (List String) × OutputData :=
  let columns := columnsOf d
  let post : OutputData := ⟨d.command, columns, d.value_names, d.records⟩
  if columns = [] then (none, post)
  else if d.records.any (fun r => columns.any (fun c => (dget r c).isNone)) then (none, post)
  else
    let w := maxWidth columns
    let sorted := sortAsc (fun r s => tupLE (recKey columns r) (recKey columns s)) d.records
    (some (("# " ++ (match d.command with | none => "None" | some c => c)) ::
           String.intercalate (" ") (columns.map (fmtStr w)) ::
           sorted.map (fun r => renderRow w (recKey columns r))),
     post)

/-! ### Output path selection (gather_array_job_output.py lines 301-307 and
gather_all_array_job_output.py lines 131-137; the two scripts share this
logic verbatim).  The file system is abstracted as the existence predicate
`ex` over path strings; `open(path, "w")` truncates an existing file at
`path`. -/

/-- The written path: `datadir / job_name`, or `datadir / job_name-jobid`
when the former exists. -/
def choose_data_path (ex : String → Bool) (datadir jobName jobid : String) : String :=
  let p := datadir ++ "/" ++ jobName
  if ex p then datadir ++ "/" ++ jobName ++ "-" ++ jobid else p

/-! ### Typing of columns, for the Writer sorting theorem

Sorting is well defined when every sort key exists and each column holds
values of one kind with a total order: all ints, all non-nan floats, or
all strs (nan makes every Python comparison false, so a column containing
nan has no ascending order; a str-number mix raises TypeError). -/

/-- The comparison kind of a scalar; none for nan. -/
inductive VType where
  | tInt
  | tFloat
  | tStr
deriving DecidableEq, Repr

/-- The comparison kind of a value. -/
def typeOf : DataValue → Option VType
  | .int _ => some .tInt
  | .float .nan => none
  | .float _ => some .tFloat
  | .str _ => some .tStr

/-- The comparison kind of the cell of a record, none when absent. -/
def cellTy (r : Dict DataValue) (c : String) : Option VType :=
  match dget r c with
  | some v => typeOf v
  | none => none

/-- Every record has every column, and each column has one comparison kind
across all records. -/
def homogeneousOn (cols : List String) (recs : List (Dict DataValue)) : Prop :=
  ∀ c ∈ cols, ∀ r ∈ recs, (cellTy r c).isSome = true ∧ ∀ s ∈ recs, cellTy r c = cellTy s c

instance (cols : List String) (recs : List (Dict DataValue)) :
    Decidable (homogeneousOn cols recs) := by
  unfold homogeneousOn
  infer_instance

/-- A tuple of values with the given comparison kinds, position by
position. -/
def TypedTup (ts : List VType) (xs : List DataValue) : Prop :=
  List.Forall₂ (fun t a => typeOf a = some t) ts xs

/-- The column kinds as seen by one record. -/
def tysOf (cols : List String) (r : Dict DataValue) : List VType :=
  cols.map (fun c => (cellTy r c).getD .tInt)

/-! ## Evaluation checks of the embedding on concrete inputs -/

example : parse_value ("42") = .int 42 := by decide

example : parse_value ("3.14") = .float (.num (mkRat 157 50)) := by decide

example : parse_value ("'abc'") = .str ("abc") := by decide

example : parse_value ("abc") = .str ("abc") := by decide

example : parse_value ("1_0") = .int 10 := by decide

example : parse_value ("-4e2") = .float (.num (mkRat (-400) 1)) := by decide

example : pyFloatParse ("0.0") = some (.num (mkRat 0 1)) := by decide

example : parse_value ("''") = .str ("") := by decide

example : parse_value ("Inf") = .float (.inf false) := by decide

example : parse_value ("5.") = .float (.num (mkRat 5 1)) := by decide

example : paramFindall ("# --n=1") = [("n", "1")] := by decide

example : paramFindall ("--=5 --a= ---b=2 --c=x=y") = [("b", "2"), ("c", "x=y")] := by decide

example : floatFindall ("result: 0.0012 final") = ["0.0012"] := by decide

example : floatFindall ("1.2.3 x 12e5 1.e5 +.5 1e+ 5.") =
    ["1.2", ".3", "12e5", "1.e5", "+.5", "1", "5."] := by decide

example : floatFindall ("no numbers here") = [] := by decide

example : file_data ["# run.sh x", "# --lr=0.1 --n=3", "out 7"] =
    .ok (some ⟨some ("run.sh x"),
               [("lr", .float (.num (mkRat 1 10))), ("n", .int 3)],
               ["out 7"]⟩) := by decide

example : file_data ["data only"] = .ok (some ⟨none, [], ["data only"]⟩) := by decide

example : file_data ["a", ""] = .error .indexError := by decide

example : file_data ["# cmd", "# --=5 --x="] = .ok (some ⟨some ("cmd"), [], []⟩) := by decide

example : last_value ["ignored", "# comment", "result: 0.0012 final"] ("Score") =
    [[("Score", .float (.num (mkRat 12 10000)))]] := by decide

example : last_value ["no numbers"] = [] := by decide

example : last_value ["0.0"] = [] := by decide

example : last_value ["done 3 of 4", "# 5"] =
    [[("Exploitability", .float (.num (mkRat 4 1)))]] := by decide

example : output_data [["# a"], ["# b"]] (fun _ => []) =
    .ok (some (⟨some ("b"), [], [], []⟩, [noValuesMsg, cmdMismatchMsg, noValuesMsg])) := by
  decide

example : output_data [["# c", "# --n=1", "x"]] (fun _ => [[("n", DataValue.int 2)]]) =
    .ok (some (⟨some ("c"), ["n"], ["n"], [[("n", DataValue.int 2)]]⟩, [overlapMsg])) := by
  decide

example :
    (write_data ⟨some ("c"), ["n"], ["v"],
      [[("n", .int 2), ("v", .int 20)], [("n", .int 1), ("v", .int 10)]]⟩).1 =
    some ["# c",
          "n       v      ",
          "      1      10",
          "      2      20"] := by decide

example : (write_data ⟨none, [], [], []⟩).1 = none := by decide

example : gfmt 4 (.num (mkRat 123456789 1)) = "1.235e+08" := by decide

example : gfmt 4 (.num (mkRat 12 10000)) = "0.0012" := by decide

example : gfmt 4 (.num (mkRat 3 1)) = "3.0" := by decide

example : gfmt 4 (.num (mkRat 1000000 1)) = "1e+06" := by decide

example : gfmt 4 (.num (mkRat 1000 1)) = "1e+03" := by decide

example : gfmt 4 (.num (mkRat 999999 100000)) = "10.0" := by decide

example : gfmt 4 (.num (mkRat 1005 10)) = "100.5" := by decide

example : gfmt 2 (.num (mkRat 125 1000)) = "0.12" := by decide

example : gfmt 2 (.num (mkRat 375 1000)) = "0.38" := by decide

example : gfmt 4 (.num (mkRat (-1234567) 1)) = "-1.235e+06" := by decide

example : gfmt 4 (.num (mkRat 9999 100000000)) = "9.999e-05" := by decide

example : renderCell 7 (.int 123456789) = "1.235e+08" := by decide

example : renderCell 7 (.float (.inf false)) = "    inf" := by decide

/-! ## Theorems for the claims -/

/-- C1.  The LastNumericValue extractor is claimed to return
`[{valueName: 0.0}]` when the selected match parses to 0.0; the code is
wrong: `if not value` treats the float 0.0 as falsy, so on the body line
"0.0" (whose findall yields the single match "0.0", parsed to the float
zero) last_value returns the empty list, contradicting its own docstring
("an empty list if no value is found"). -/
theorem last_value_drops_zero :
    floatFindall ("0.0") = ["0.0"] ∧
    pyFloatParse ("0.0") = some (.num (mkRat 0 1)) ∧
    last_value ["0.0"] = [] ∧
    last_value ["0.0"] ≠ [[(VALUE_NAME, DataValue.float (.num (mkRat 0 1)))]] := by
  refine ⟨by decide, by decide, by decide, by decide⟩

/-- C4.  The File Parser is claimed total (a RawFileRecord or None for
every file content, blank lines included); the code is wrong: the body
comprehension `[line for line in lines if line[0] != "#"]` indexes every
stripped line, and a blank line raises IndexError.  Both a file that is a
single blank line and a file with data followed by a blank line crash. -/
theorem file_data_blank_line_crash :
    file_data [""] = .error .indexError ∧
    file_data ["out 7", ""] = .error .indexError ∧
    file_data ["data only"] = .ok (some ⟨none, [], ["data only"]⟩) := by
  refine ⟨by decide, by decide, by decide⟩

/-- C6, counterexample.  A header token with an empty NAME (`--=5`) or an
empty VALUE (`--x=`) is claimed to abort the file with a hard failure; in
fact param_regex (whose NAME group needs a leading word character and
whose VALUE group needs at least one character) simply does not match
such tokens, findall returns nothing for them, and file_data returns a
normal record with no parameters. -/
theorem file_data_empty_token_skipped :
    paramFindall ("# --=5 --x=") = [] ∧
    file_data ["# cmd", "# --=5 --x="] = .ok (some ⟨some ("cmd"), [], []⟩) ∧
    file_data ["# cmd", "# --=5 --x="] ≠ .ok none := by
  refine ⟨by decide, by decide, by decide⟩

/-- C8, counterexample.  The integer step of the Scalar Parser is claimed to
accept exactly an optional leading sign followed by digits only; the int()
of Python also accepts underscores between digits, so the token "1_0" (which
the claimed grammar rejects, and which would therefore have to come out a
Float or the original String) parses to Integer 10. -/
theorem parse_value_underscore :
    specIntTok ("1_0") = false ∧
    parse_value ("1_0") = .int 10 ∧
    parse_value ("1_0") ≠ .str ("1_0") := by
  refine ⟨by decide, by decide, by decide⟩

/-- C8, amended.  parse_value is total and deterministic and follows
exactly the claimed order, with the integer and floating-point steps
those of the Python int() and float() (which also accept single underscores
between digits, surrounding whitespace, and inf/nan for float): a token
whose first and last characters are the same quote character (length at
least 2) yields the inner text as String with no coercion; otherwise an
int() success yields that Integer; otherwise a float() success yields
that Float; otherwise the original token as String.  The four examples of
the claim hold. -/
theorem parse_value_order (s : String) :
    (quotedTok s = true → parse_value s = .str (String.mk s.data.tail.dropLast)) ∧
    (∀ n, quotedTok s = false → pyIntParse s = some n → parse_value s = .int n) ∧
    (∀ f, quotedTok s = false → pyIntParse s = none → pyFloatParse s = some f →
      parse_value s = .float f) ∧
    (quotedTok s = false → pyIntParse s = none → pyFloatParse s = none →
      parse_value s = .str s) ∧
    parse_value ("42") = .int 42 ∧
    parse_value ("3.14") = .float (.num (mkRat 157 50)) ∧
    parse_value ("'abc'") = .str ("abc") ∧
    parse_value ("abc") = .str ("abc") := by
  refine ⟨fun hq => by simp [parse_value, hq],
          fun n hq hi => by simp [parse_value, hq, hi],
          fun f hq hi hf => by simp [parse_value, hq, hi, hf],
          fun hq hi hf => by simp [parse_value, hq, hi, hf],
          by decide, by decide, by decide, by decide⟩

/-- Witness for parse_value_order at concrete tokens. -/
theorem parse_value_order_witness :
    quotedTok ("'xy'") = true ∧ parse_value ("'xy'") = .str ("xy") ∧
    pyIntParse ("+7") = some 7 ∧ parse_value ("+7") = .int 7 := by
  refine ⟨by decide, (parse_value_order ("'xy'")).1 (by decide), by decide,
          (parse_value_order ("+7")).2.1 7 (by decide) (by decide)⟩

/-- C2, counterexample.  No name is claimed to appear in both
parameterNames and valueNames (first classification wins); in fact the
value-name check at line 188 consults only value_names, so a file with
parameter n whose extracted data point also has key n puts "n" in both
lists (the within-file overlap warning fires, but the schema still gains
the duplicate). -/
theorem output_data_shared_name :
    output_data [["# c", "# --n=1", "x"]] (fun _ => [[("n", DataValue.int 2)]]) =
      .ok (some (⟨some ("c"), ["n"], ["n"], [[("n", DataValue.int 2)]]⟩, [overlapMsg])) ∧
    "n" ∈ (OutputData.mk (some ("c")) ["n"] ["n"] [[("n", DataValue.int 2)]]).parameter_names ∧
    "n" ∈ (OutputData.mk (some ("c")) ["n"] ["n"] [[("n", DataValue.int 2)]]).value_names := by
  refine ⟨by decide, by decide, by decide⟩

/-- C3, counterexample.  The dataset command is claimed to be that of the
first file that has one, unchanged by later files; in fact line 177
overwrites it on every file, so for files with commands "a" then "b" the
dataset records "b" (the mismatch warning does fire). -/
theorem output_data_command_overwritten :
    file_data ["# a"] = .ok (some ⟨some ("a"), [], []⟩) ∧
    output_data [["# a"], ["# b"]] (fun _ => []) =
      .ok (some (⟨some ("b"), [], [], []⟩, [noValuesMsg, cmdMismatchMsg, noValuesMsg])) ∧
    some ("b") ≠ some ("a") := by
  refine ⟨by decide, by decide, by decide⟩

/-- C5, counterexample.  write_data is claimed to leave the dataset
unchanged; in fact `columns = data.parameter_names` aliases the stored
list and `columns += [...]` extends it in place, so a dataset with no
parameter names and value name "v" comes back with parameterNames =
["v"]. -/
theorem write_data_mutates_parameter_names :
    (write_data ⟨none, [], ["v"], []⟩).2 = ⟨none, ["v"], ["v"], []⟩ ∧
    (OutputData.mk none ["v"] ["v"] []).parameter_names ≠
      (OutputData.mk none [] ["v"] []).parameter_names := by
  refine ⟨by decide, by decide⟩

/-- C5, amended.  write_data leaves command, valueNames and records
unchanged, but replaces parameterNames with the full column list (the
parameter names followed by the value names not already among them); the
parameter-name list is only unchanged when every value name is already a
parameter name. -/
theorem write_data_frame (d : OutputData) :
    (write_data d).2.command = d.command ∧
    (write_data d).2.value_names = d.value_names ∧
    (write_data d).2.records = d.records ∧
    (write_data d).2.parameter_names =
      d.parameter_names ++ d.value_names.filter (fun x => !(x ∈ d.parameter_names)) := by
  unfold write_data columnsOf
  dsimp only
  split
  · exact ⟨rfl, rfl, rfl, rfl⟩
  · split
    · exact ⟨rfl, rfl, rfl, rfl⟩
    · exact ⟨rfl, rfl, rfl, rfl⟩

/-- C7, counterexample.  No existing file is claimed to ever be
overwritten; but when both the default path and the job-id-suffixed
fallback exist, the fallback is chosen and opened with mode "w", which
truncates the existing file at that path. -/
theorem choose_data_path_overwrites :
    choose_data_path (fun p => p = "data/job" || p = "data/job-7") ("data") ("job") ("7") =
      "data/job-7" ∧
    (fun p => p = "data/job" || p = "data/job-7") ("data/job-7") = true := by
  refine ⟨by decide, by decide⟩

/-- C7, amended.  When the default path {dataDir}/{jobName} exists the
program writes to {dataDir}/{jobName}-{jobId} instead (emitting a
notice), and the default path is left unmodified because the chosen path
differs from it; but only the default path is protected: the suffixed
path is opened with mode "w" even if it also exists. -/
theorem choose_data_path_fallback (ex : String → Bool) (datadir jobName jobid : String)
    (h : ex (datadir ++ "/" ++ jobName) = true) :
    choose_data_path ex datadir jobName jobid =
      datadir ++ "/" ++ jobName ++ "-" ++ jobid ∧
    choose_data_path ex datadir jobName jobid ≠ datadir ++ "/" ++ jobName := by
  unfold choose_data_path
  dsimp only
  rw [h]
  refine ⟨rfl, fun heq => ?_⟩
  rw [if_pos rfl] at heq
  have hlen := congrArg String.length heq
  simp only [String.length_append] at hlen
  have h1 : ("-" : String).length = 1 := rfl
  omega

/-- Witness for choose_data_path_fallback. -/
theorem choose_data_path_fallback_witness :
    (fun p => p = "d/j" || p = "d/j-1") ("d" ++ "/" ++ "j") = true ∧
    choose_data_path (fun p => p = "d/j" || p = "d/j-1") ("d") ("j") ("1") =
      "d" ++ "/" ++ "j" ++ "-" ++ "1" ∧
    choose_data_path (fun p => p = "d/j" || p = "d/j-1") ("d") ("j") ("1") ≠
      "d" ++ "/" ++ "j" :=
  ⟨by decide,
   (choose_data_path_fallback (fun p => p = "d/j" || p = "d/j-1") ("d") ("j") ("1")
     (by decide)).1,
   (choose_data_path_fallback (fun p => p = "d/j" || p = "d/j-1") ("d") ("j") ("1")
     (by decide)).2⟩

/-- C10.  The Writer needs at least one column: aggregating an empty file
list yields the empty dataset, and on any dataset whose parameterNames
and valueNames are both empty write_data fails (operator.itemgetter with
zero arguments and max() over an empty sequence both raise) instead of
rendering a table, so callers must guarantee a nonempty schema. -/
theorem write_data_empty_schema_fails :
    (∀ ex, output_data [] ex = .ok (some (⟨none, [], [], []⟩, []))) ∧
    ∀ d : OutputData, d.parameter_names = [] → d.value_names = [] →
      (write_data d).1 = none := by
  constructor
  · intro ex; rfl
  · intro d hp hv
    have hc : columnsOf d = [] := by simp [columnsOf, hp, hv]
    simp [write_data, hc]

/-- Witness for write_data_empty_schema_fails: a dataset with a record
but no columns is rejected. -/
theorem write_data_empty_schema_fails_witness :
    (OutputData.mk none [] [] [[("x", DataValue.int 1)]]).parameter_names = [] ∧
    (OutputData.mk none [] [] [[("x", DataValue.int 1)]]).value_names = [] ∧
    (write_data (OutputData.mk none [] [] [[("x", DataValue.int 1)]])).1 = none :=
  ⟨rfl, rfl, write_data_empty_schema_fails.2 _ rfl rfl⟩

/-! ### The parameter pattern never produces empty groups (for C6) -/

/-- Both groups of a successful paramTry are nonempty. -/
theorem paramTry_nonempty (l : List Char) (n v : String) (rest : List Char)
    (h : paramTry l = some (n, v, rest)) : n ≠ "" ∧ v ≠ "" := by
  cases l with
  | nil => simp [paramTry] at h
  | cons c cs =>
    unfold paramTry at h
    by_cases hw : isWordChar c
    · simp only [hw, if_true, if_pos] at h
      split at h
      · split at h
        · exact absurd h (by simp)
        · simp only [Option.some.injEq, Prod.mk.injEq] at h
          obtain ⟨hn, hv, -⟩ := h
          constructor
          · rw [← hn]; intro hc; have h0 := congrArg String.data hc; simp at h0
          · rw [← hv]; intro hc; have h0 := congrArg String.data hc; simp at h0
      · exact absurd h (by simp)
    · simp [hw] at h

/-- Every pair produced by the param_regex scanner has a nonempty name
and a nonempty value. -/
theorem paramScanF_nonempty :
    ∀ (fuel : Nat) (l : List Char) (p : String × String),
      p ∈ paramScanF fuel l → p.1 ≠ "" ∧ p.2 ≠ "" := by
  intro fuel
  induction fuel with
  | zero => intro l p hp; simp [paramScanF] at hp
  | succ f ih =>
    intro l p hp
    cases l with
    | nil => simp [paramScanF] at hp
    | cons a rest =>
      unfold paramScanF at hp
      by_cases ha : a = '-'
      · simp only [ha, if_true, if_pos] at hp
        cases rest with
        | nil => simp at hp
        | cons b rest2 =>
          by_cases hb : b = '-'
          · simp only [hb, if_true, if_pos] at hp
            cases htry : paramTry rest2 with
            | none => rw [htry] at hp; exact ih _ _ hp
            | some t =>
              rw [htry] at hp
              obtain ⟨n, v, r⟩ := t
              rcases List.mem_cons.mp hp with h1 | h2
              · subst h1; exact paramTry_nonempty rest2 n v r htry
              · exact ih _ _ h2
          · simp only [hb, if_false, if_neg] at hp
            exact ih _ _ hp
      · simp only [ha, if_false, if_neg] at hp
        exact ih _ _ hp

/-- paramFold cannot fail on matches whose groups are nonempty. -/
theorem paramFold_some (ms : List (String × String)) (p : Dict DataValue)
    (h : ∀ m ∈ ms, m.1 ≠ "" ∧ m.2 ≠ "") : ∃ p', paramFold ms p = some p' := by
  induction ms generalizing p with
  | nil => exact ⟨p, rfl⟩
  | cons m ms' ih =>
    obtain ⟨h1, h2⟩ := h m (List.mem_cons_self m ms')
    obtain ⟨n, v⟩ := m
    unfold paramFold
    simp only [h1, h2, or_self, if_false, if_neg, Bool.or_eq_true, decide_eq_true_eq,
      not_or]
    exact ih _ (fun x hx => h x (List.mem_cons_of_mem _ hx))

/-- The header loop never takes the hard-failure branch. -/
theorem headerScan_some (ls : List String) :
    ∀ c p, ∃ r, headerScan ls c p = some r := by
  induction ls with
  | nil => intro c p; exact ⟨(c, p), rfl⟩
  | cons l ls' ih =>
    intro c p
    unfold headerScan
    split
    · exact ih c p
    · split
      · exact ⟨(c, p), rfl⟩
      · split
        · exact ih _ p
        · obtain ⟨p', hp'⟩ := paramFold_some (paramFindall l) p
            (fun m hm => paramScanF_nonempty _ _ m hm)
          rw [hp']
          exact ih c p'

/-- C6, amended.  A token with an empty NAME or an empty VALUE never
matches param_regex (whose NAME group starts with a word character and
whose VALUE group needs at least one character), so the parser skips such
text and returns a RawFileRecord normally; the empty-name hard-failure
branch at lines 134-137 is unreachable, and file_data never returns the
parse-failure signal None — its only outcomes are a record or the
IndexError crash of its body comprehension. -/
theorem file_data_never_hard_fails (lines : List String) :
    file_data lines = .error .indexError ∨ ∃ r, file_data lines = .ok (some r) := by
  unfold file_data
  dsimp only
  obtain ⟨⟨c, p⟩, hh⟩ := headerScan_some (lines.map pyStrip) none []
  rw [hh]
  cases hb : bodyLines (lines.map pyStrip) with
  | error e => cases e; left; simp [hb, Except.map]
  | ok bls => right; exact ⟨⟨c, p, bls⟩, by simp [hb, Except.map]⟩

/-! ### Name-set and command lemmas for the Aggregator (C2, C3) -/

/-- addNames preserves freedom from duplicates. -/
theorem addNames_nodup (names : List String) :
    ∀ seen : List String, seen.Nodup → (addNames names seen).Nodup := by
  induction names with
  | nil => intro seen h; exact h
  | cons n ns ih =>
    intro seen h
    have hstep : addNames (n :: ns) seen =
        addNames ns (if n ∈ seen then seen else seen ++ [n]) := by
      unfold addNames
      rw [List.foldl_cons]
    rw [hstep]
    apply ih
    split
    · exact h
    · next hn =>
      simp only [List.nodup_append, List.nodup_cons, List.not_mem_nil, not_false_iff,
        List.nodup_nil, and_true, true_and]
      exact ⟨h, by simpa using hn⟩

/-- The fold over extracted data points preserves freedom from duplicates
in its value-name component. -/
theorem valuesFold_nodup (params : Dict DataValue) (vl : List (Dict DataValue)) :
    ∀ st : List String × List String × List (Dict DataValue), st.1.Nodup →
      (vl.foldl (valuesStep params) st).1.Nodup := by
  induction vl with
  | nil => intro st h; exact h
  | cons v vs ih =>
    intro st h
    rw [List.foldl_cons]
    exact ih _ (addNames_nodup _ _ h)

/-- Freedom from duplicates is an invariant of the aggregation loop. -/
theorem outputDataAux_nodup (ex : List String → List (Dict DataValue)) :
    ∀ (files : List (List String)) (st : AggState),
      st.parameter_names.Nodup → st.value_names.Nodup →
      ∀ od ws, outputDataAux ex files st = .ok (some (od, ws)) →
        od.parameter_names.Nodup ∧ od.value_names.Nodup := by
  intro files
  induction files with
  | nil =>
    intro st h1 h2 od ws h
    unfold outputDataAux at h
    simp only [Except.ok.injEq, Option.some.injEq, Prod.mk.injEq] at h
    obtain ⟨hod, -⟩ := h
    rw [← hod]
    exact ⟨h1, h2⟩
  | cons f fs ih =>
    intro st h1 h2 od ws h
    unfold outputDataAux at h
    cases hf : file_data f with
    | error e => rw [hf] at h; exact absurd h (by simp)
    | ok data =>
      cases data with
      | none => rw [hf] at h; exact absurd h (by simp)
      | some d =>
        rw [hf] at h
        exact ih _ (addNames_nodup _ _ h1) (valuesFold_nodup _ _ _ h2) od ws h

/-- C2, amended.  After output_data processes any list of files with any
extractor, parameterNames and valueNames each contain no duplicates; but
the two lists are not disjoint: a value key is checked only against
valueNames (and a parameter only against parameterNames), so a name
encountered in both roles is appended to both lists, with a warning only
when the overlap is between the params of one file and one of its own data
points. -/
theorem output_data_names_nodup (files : List (List String))
    (ex : List String → List (Dict DataValue)) (od : OutputData) (ws : List String)
    (h : output_data files ex = .ok (some (od, ws))) :
    od.parameter_names.Nodup ∧ od.value_names.Nodup :=
  outputDataAux_nodup ex files ⟨[], [], [], none, []⟩ List.nodup_nil List.nodup_nil od ws h

/-- Witness for output_data_names_nodup at the two-role file of the C2
counterexample. -/
theorem output_data_names_nodup_witness :
    output_data [["# c", "# --n=1", "x"]] (fun _ => [[("n", DataValue.int 2)]]) =
      .ok (some (⟨some ("c"), ["n"], ["n"], [[("n", DataValue.int 2)]]⟩, [overlapMsg])) ∧
    (OutputData.mk (some ("c")) ["n"] ["n"] [[("n", DataValue.int 2)]]).parameter_names.Nodup ∧
    (OutputData.mk (some ("c")) ["n"] ["n"] [[("n", DataValue.int 2)]]).value_names.Nodup :=
  ⟨by decide,
   (output_data_names_nodup [["# c", "# --n=1", "x"]] (fun _ => [[("n", DataValue.int 2)]])
     ⟨some ("c"), ["n"], ["n"], [[("n", DataValue.int 2)]]⟩ [overlapMsg] (by decide)).1,
   (output_data_names_nodup [["# c", "# --n=1", "x"]] (fun _ => [[("n", DataValue.int 2)]])
     ⟨some ("c"), ["n"], ["n"], [[("n", DataValue.int 2)]]⟩ [overlapMsg] (by decide)).2⟩

/-- The aggregation loop takes the command of the last successfully parsed
file, whatever was recorded before. -/
theorem outputDataAux_last_command (ex : List String → List (Dict DataValue)) :
    ∀ (fs : List (List String)) (f : List String) (st : AggState) od ws,
      outputDataAux ex (fs ++ [f]) st = .ok (some (od, ws)) →
      ∃ d, file_data f = .ok (some d) ∧ od.command = d.command := by
  intro fs
  induction fs with
  | nil =>
    intro f st od ws h
    rw [List.nil_append] at h
    unfold outputDataAux at h
    cases hf : file_data f with
    | error e => rw [hf] at h; exact absurd h (by simp)
    | ok data =>
      cases data with
      | none => rw [hf] at h; exact absurd h (by simp)
      | some d =>
        rw [hf] at h
        unfold outputDataAux at h
        simp only [Except.ok.injEq, Option.some.injEq, Prod.mk.injEq] at h
        obtain ⟨hod, -⟩ := h
        exact ⟨d, rfl, by rw [← hod]; rfl⟩
  | cons g gs ih =>
    intro f st od ws h
    rw [List.cons_append] at h
    unfold outputDataAux at h
    cases hg : file_data g with
    | error e => rw [hg] at h; exact absurd h (by simp)
    | ok data =>
      cases data with
      | none => rw [hg] at h; exact absurd h (by simp)
      | some d => rw [hg] at h; exact ih f _ od ws h

/-- The fold over extracted data points only appends to the warning
list. -/
theorem valuesFold_warn_mono (params : Dict DataValue) (vl : List (Dict DataValue)) :
    ∀ st : List String × List String × List (Dict DataValue),
      ∃ t, (vl.foldl (valuesStep params) st).2.1 = st.2.1 ++ t := by
  induction vl with
  | nil => intro st; exact ⟨[], (List.append_nil _).symm⟩
  | cons v vs ih =>
    intro st
    rw [List.foldl_cons]
    obtain ⟨t, ht⟩ := ih (valuesStep params st v)
    rw [ht]
    unfold valuesStep
    dsimp only
    split
    · exact ⟨[overlapMsg] ++ t, by rw [List.append_assoc]⟩
    · exact ⟨t, rfl⟩

/-- The command-mismatch check only appends to the warning list. -/
theorem warnStep_mono (w : List String) (cmd dcmd : Option String) :
    ∃ v, warnStep w cmd dcmd = w ++ v := by
  cases cmd with
  | none => exact ⟨[], (List.append_nil _).symm⟩
  | some c =>
    by_cases hd : dcmd ≠ some c
    · exact ⟨[cmdMismatchMsg], by unfold warnStep; dsimp only; rw [if_pos hd]⟩
    · exact ⟨[], by unfold warnStep; dsimp only; rw [if_neg hd, List.append_nil]⟩

/-- One aggregation step only appends to the warning list. -/
theorem nextState_warn_mono (ex : List String → List (Dict DataValue))
    (st : AggState) (d : OutputFileRawData) :
    ∃ t, (nextState ex st d).warnings = st.warnings ++ t := by
  unfold nextState
  dsimp only
  obtain ⟨t, ht⟩ := valuesFold_warn_mono d.params (ex d.data_lines) _
  rw [ht]
  dsimp only
  obtain ⟨v, hv⟩ := warnStep_mono st.warnings st.command d.command
  rw [hv]
  by_cases hp : ex d.data_lines = []
  · rw [if_pos hp]
    exact ⟨v ++ [noValuesMsg] ++ t, by simp only [List.append_assoc]⟩
  · rw [if_neg hp]
    exact ⟨v ++ t, by rw [List.append_assoc]⟩

/-- The whole aggregation loop only appends to the warning list. -/
theorem outputDataAux_warn_mono (ex : List String → List (Dict DataValue)) :
    ∀ (files : List (List String)) (st : AggState) od ws,
      outputDataAux ex files st = .ok (some (od, ws)) →
      ∃ t, ws = st.warnings ++ t := by
  intro files
  induction files with
  | nil =>
    intro st od ws h
    unfold outputDataAux at h
    simp only [Except.ok.injEq, Option.some.injEq, Prod.mk.injEq] at h
    exact ⟨[], by rw [← h.2, List.append_nil]⟩
  | cons f fs ih =>
    intro st od ws h
    unfold outputDataAux at h
    cases hf : file_data f with
    | error e => rw [hf] at h; exact absurd h (by simp)
    | ok data =>
      cases data with
      | none => rw [hf] at h; exact absurd h (by simp)
      | some d =>
        rw [hf] at h
        obtain ⟨t1, ht1⟩ := ih _ od ws h
        obtain ⟨t2, ht2⟩ := nextState_warn_mono ex st d
        rw [ht2] at ht1
        exact ⟨t2 ++ t1, by rw [ht1, List.append_assoc]⟩

/-- The command-mismatch check fires when the recorded command is present
and the new one differs. -/
theorem warnStep_mismatch (w : List String) (c : String) (dcmd : Option String)
    (hne : dcmd ≠ some c) : warnStep w (some c) dcmd = w ++ [cmdMismatchMsg] := by
  unfold warnStep
  dsimp only
  rw [if_pos hne]

/-- Processing a file whose command differs from the recorded one records
the mismatch warning. -/
theorem nextState_warn_mismatch (ex : List String → List (Dict DataValue))
    (st : AggState) (d : OutputFileRawData) (c : String) (hc : st.command = some c)
    (hne : d.command ≠ some c) : cmdMismatchMsg ∈ (nextState ex st d).warnings := by
  unfold nextState
  dsimp only
  obtain ⟨t, ht⟩ := valuesFold_warn_mono d.params (ex d.data_lines) _
  rw [ht]
  dsimp only
  rw [hc, warnStep_mismatch st.warnings c d.command hne]
  by_cases hp : ex d.data_lines = []
  · rw [if_pos hp]; simp
  · rw [if_neg hp]; simp

/-- C3, amended.  The command field of the dataset equals the command of
the LAST file in input order (line 177 overwrites it for every file, even
with None); a later file whose command differs from the currently
recorded non-None command produces the non-fatal mismatch warning, but
the recorded command is then replaced by the command of the later file. -/
theorem output_data_command_last :
    (∀ (fs : List (List String)) (f : List String)
       (ex : List String → List (Dict DataValue)) od ws,
       output_data (fs ++ [f]) ex = .ok (some (od, ws)) →
       ∃ d, file_data f = .ok (some d) ∧ od.command = d.command) ∧
    (∀ (f₁ f₂ : List String) (ex : List String → List (Dict DataValue)) od ws d₁ d₂,
       output_data [f₁, f₂] ex = .ok (some (od, ws)) →
       file_data f₁ = .ok (some d₁) → file_data f₂ = .ok (some d₂) →
       d₁.command.isSome → d₂.command ≠ d₁.command →
       cmdMismatchMsg ∈ ws ∧ od.command = d₂.command) := by
  constructor
  · intro fs f ex od ws h
    exact outputDataAux_last_command ex fs f _ od ws h
  · intro f₁ f₂ ex od ws d₁ d₂ h hf₁ hf₂ hs hne
    unfold output_data at h
    unfold outputDataAux at h
    rw [hf₁] at h
    unfold outputDataAux at h
    rw [hf₂] at h
    unfold outputDataAux at h
    simp only [Except.ok.injEq, Option.some.injEq, Prod.mk.injEq] at h
    obtain ⟨hod, hws⟩ := h
    obtain ⟨c, hc⟩ := Option.isSome_iff_exists.mp hs
    constructor
    · rw [← hws]
      exact nextState_warn_mismatch ex _ d₂ c hc (by rw [hc] at hne; exact hne)
    · rw [← hod]; rfl

/-- Witness for output_data_command_last: files with commands "a" then
"b" aggregate to command "b". -/
theorem output_data_command_last_witness :
    output_data [["# a"], ["# b"]] (fun _ => []) =
      .ok (some (⟨some ("b"), [], [], []⟩, [noValuesMsg, cmdMismatchMsg, noValuesMsg])) ∧
    (∃ d, file_data ["# b"] = .ok (some d) ∧
      (OutputData.mk (some ("b")) [] [] []).command = d.command) :=
  ⟨by decide,
   output_data_command_last.1 [["# a"]] ["# b"] (fun _ => [])
     ⟨some ("b"), [], [], []⟩ [noValuesMsg, cmdMismatchMsg, noValuesMsg] (by decide)⟩

/-! ### Sorting lemmas for the Writer (C9) -/

theorem mem_insertAsc (le : α → α → Bool) (a x : α) :
    ∀ l : List α, x ∈ insertAsc le a l ↔ x = a ∨ x ∈ l := by
  intro l
  induction l with
  | nil => simp [insertAsc]
  | cons b bs ih =>
    unfold insertAsc
    split
    · simp [List.mem_cons]
    · simp only [List.mem_cons, ih]
      tauto

theorem perm_insertAsc (le : α → α → Bool) (a : α) :
    ∀ l : List α, List.Perm (insertAsc le a l) (a :: l) := by
  intro l
  induction l with
  | nil => exact List.Perm.refl _
  | cons b bs ih =>
    unfold insertAsc
    split
    · exact List.Perm.refl _
    · exact (ih.cons b).trans (List.Perm.swap a b bs)

theorem perm_sortAsc (le : α → α → Bool) :
    ∀ l : List α, List.Perm (sortAsc le l) l := by
  intro l
  induction l with
  | nil => exact List.Perm.refl _
  | cons a as ih =>
    exact (perm_insertAsc le a (sortAsc le as)).trans (ih.cons a)

theorem mem_sortAsc (le : α → α → Bool) (l : List α) (x : α) :
    x ∈ sortAsc le l ↔ x ∈ l :=
  (perm_sortAsc le l).mem_iff

theorem pairwise_insertAsc (le : α → α → Bool) (a : α) :
    ∀ l : List α,
      (∀ b ∈ l, le a b = true ∨ le b a = true) →
      (∀ x y z : α, (x = a ∨ x ∈ l) → (y = a ∨ y ∈ l) → (z = a ∨ z ∈ l) →
        le x y = true → le y z = true → le x z = true) →
      l.Pairwise (fun x y => le x y = true) →
      (insertAsc le a l).Pairwise (fun x y => le x y = true) := by
  intro l
  induction l with
  | nil => intro _ _ _; simp [insertAsc]
  | cons b bs ih =>
    intro htot htrans hl
    rcases hl with - | ⟨hb, hbs⟩
    unfold insertAsc
    split
    · next hab =>
      refine List.Pairwise.cons ?_ (List.Pairwise.cons hb hbs)
      intro x hx
      rcases List.mem_cons.mp hx with rfl | hx'
      · exact hab
      · exact htrans a b x (Or.inl rfl) (Or.inr (List.mem_cons_self b bs))
          (Or.inr (List.mem_cons_of_mem b hx')) hab (hb x hx')
    · next hab =>
      have hba : le b a = true := by
        rcases htot b (List.mem_cons_self b bs) with h | h
        · exact absurd h hab
        · exact h
      refine List.Pairwise.cons ?_ ?_
      · intro x hx
        rcases (mem_insertAsc le a x bs).mp hx with rfl | hx'
        · exact hba
        · exact hb x hx'
      · refine ih ?_ ?_ hbs
        · intro c hc
          rcases htot c (List.mem_cons_of_mem b hc) with h | h
          · exact Or.inl h
          · exact Or.inr h
        · intro x y z hx hy hz
          apply htrans x y z
          · rcases hx with h | h
            exacts [Or.inl h, Or.inr (List.mem_cons_of_mem b h)]
          · rcases hy with h | h
            exacts [Or.inl h, Or.inr (List.mem_cons_of_mem b h)]
          · rcases hz with h | h
            exacts [Or.inl h, Or.inr (List.mem_cons_of_mem b h)]

theorem pairwise_sortAsc (le : α → α → Bool) :
    ∀ l : List α,
      (∀ a ∈ l, ∀ b ∈ l, le a b = true ∨ le b a = true) →
      (∀ x ∈ l, ∀ y ∈ l, ∀ z ∈ l, le x y = true → le y z = true → le x z = true) →
      (sortAsc le l).Pairwise (fun x y => le x y = true) := by
  intro l
  induction l with
  | nil => intro _ _; simp [sortAsc]
  | cons a as ih =>
    intro htot htrans
    unfold sortAsc
    have hmem : ∀ x, x ∈ sortAsc le as → x ∈ a :: as :=
      fun x hx => List.mem_cons_of_mem a ((mem_sortAsc le as x).mp hx)
    refine pairwise_insertAsc le a (sortAsc le as) ?_ ?_ ?_
    · intro b hb
      exact htot a (List.mem_cons_self a as) b (hmem b hb)
    · intro x y z hx hy hz
      have hx' : x ∈ a :: as := by
        rcases hx with h | h
        exacts [h ▸ List.mem_cons_self a as, hmem x h]
      have hy' : y ∈ a :: as := by
        rcases hy with h | h
        exacts [h ▸ List.mem_cons_self a as, hmem y h]
      have hz' : z ∈ a :: as := by
        rcases hz with h | h
        exacts [h ▸ List.mem_cons_self a as, hmem z h]
      exact htrans x hx' y hy' z hz'
    · refine ih ?_ ?_
      · intro x hx y hy
        exact htot x (List.mem_cons_of_mem a hx) y (List.mem_cons_of_mem a hy)
      · intro x hx y hy z hz
        exact htrans x (List.mem_cons_of_mem a hx) y (List.mem_cons_of_mem a hy)
          z (List.mem_cons_of_mem a hz)

/-- Two ascending lists with the same elements are equal, given
antisymmetry on those elements. -/
theorem sorted_perm_eq (le : α → α → Bool) :
    ∀ l₁ l₂ : List α,
      (∀ a ∈ l₁, ∀ b ∈ l₁, le a b = true → le b a = true → a = b) →
      List.Perm l₁ l₂ →
      l₁.Pairwise (fun x y => le x y = true) →
      l₂.Pairwise (fun x y => le x y = true) →
      l₁ = l₂ := by
  intro l₁
  induction l₁ with
  | nil =>
    intro l₂ _ hp _ _
    exact (List.Perm.nil_eq hp).symm ▸ rfl
  | cons a t₁ ih =>
    intro l₂ hanti hp hs₁ hs₂
    cases l₂ with
    | nil => exact absurd hp.symm (by simp [List.Perm.nil_eq, List.nil_perm])
    | cons b t₂ =>
      rcases hs₁ with - | ⟨ha, ht₁⟩
      rcases hs₂ with - | ⟨hb, ht₂⟩
      have hab : a = b := by
        have hbmem : b ∈ a :: t₁ := hp.mem_iff.mpr (List.mem_cons_self b t₂)
        have hamem : a ∈ b :: t₂ := hp.mem_iff.mp (List.mem_cons_self a t₁)
        rcases List.mem_cons.mp hbmem with h | hbt₁
        · exact h.symm
        · rcases List.mem_cons.mp hamem with h | hat₂
          · exact h
          · exact hanti a (List.mem_cons_self a t₁) b (List.mem_cons_of_mem a hbt₁)
              (ha b hbt₁) (hb a hat₂)
      subst hab
      have hpt : List.Perm t₁ t₂ := hp.cons_inv
      rw [ih t₂ (fun x hx y hy => hanti x (List.mem_cons_of_mem a hx)
        y (List.mem_cons_of_mem a hy)) hpt ht₁ ht₂]

theorem insertAsc_map (g : α → β) (le' : β → β → Bool) (a : α) :
    ∀ l : List α,
      (insertAsc (fun x y => le' (g x) (g y)) a l).map g = insertAsc le' (g a) (l.map g) := by
  intro l
  induction l with
  | nil => rfl
  | cons b bs ih =>
    unfold insertAsc
    split
    · next h => simp only [List.map_cons]; rw [if_pos h]
    · next h =>
      simp only [List.map_cons]
      rw [if_neg h, ← ih]

theorem sortAsc_map (g : α → β) (le' : β → β → Bool) :
    ∀ l : List α,
      (sortAsc (fun x y => le' (g x) (g y)) l).map g = sortAsc le' (l.map g) := by
  intro l
  induction l with
  | nil => rfl
  | cons a as ih =>
    unfold sortAsc
    simp only [List.map_cons]
    rw [insertAsc_map, ih]

theorem any_perm {l l' : List α} (p : List.Perm l l') (f : α → Bool) : l.any f = l'.any f := by
  cases h : l.any f with
  | true =>
    obtain ⟨x, hx, hfx⟩ := List.any_eq_true.mp h
    exact (List.any_eq_true.mpr ⟨x, p.mem_iff.mp hx, hfx⟩).symm
  | false =>
    cases h' : l'.any f with
    | false => rfl
    | true =>
      obtain ⟨x, hx, hfx⟩ := List.any_eq_true.mp h'
      have hcon : l.any f = true := List.any_eq_true.mpr ⟨x, p.mem_iff.mpr hx, hfx⟩
      rw [h] at hcon
      exact absurd hcon Bool.false_ne_true

/-! ### Comparison properties on values of one kind (C9) -/

theorem dv_eq_iff (u v : DataValue)
    (huv : typeOf u = typeOf v) (hsu : (typeOf u).isSome = true) :
    pyEq u v = true ↔ u = v := by
  rcases u with a | f | s₁ <;> rcases v with b | g | s₂
  case int.int => simp [pyEq]
  case int.float => rcases g with q | gb | _ <;> simp_all [typeOf]
  case int.str => simp_all [typeOf]
  case float.int => rcases f with q | fb | _ <;> simp_all [typeOf]
  case float.float =>
    rcases f with q1 | b1 | _ <;> rcases g with q2 | b2 | _ <;>
      simp_all [typeOf, pyEq, pfEq]
  case float.str => rcases f with q | fb | _ <;> simp_all [typeOf]
  case str.int => simp_all [typeOf]
  case str.float => rcases g with q | gb | _ <;> simp_all [typeOf]
  case str.str => simp [pyEq]

theorem dv_lt_irrefl (u : DataValue) (hsu : (typeOf u).isSome = true) :
    pyLT u u = false := by
  rcases u with a | f | s
  · simp [pyLT]
  · rcases f with q | b | _ <;> simp_all [typeOf, pyLT, pfLT]
    cases b <;> simp [pfLT]
  · simp [pyLT]

theorem pf_trichotomy (f g : PFloat) (hf : f ≠ .nan) (hg : g ≠ .nan) :
    pfLT f g = true ∨ pfEq f g = true ∨ pfLT g f = true := by
  rcases f with q1 | b1 | _ <;> rcases g with q2 | b2 | _ <;> try simp_all
  · simp only [pfLT, pfEq, decide_eq_true_eq, beq_iff_eq]
    exact lt_trichotomy q1 q2
  · cases b2 <;> simp [pfLT]
  · cases b1 <;> simp [pfLT]
  · cases b1 <;> cases b2 <;> simp [pfLT, pfEq]

theorem pf_lt_trans (f g k : PFloat) (h1 : pfLT f g = true) (h2 : pfLT g k = true) :
    pfLT f k = true := by
  rcases f with q1 | b1 | _ <;> rcases g with q2 | b2 | _ <;> rcases k with q3 | b3 | _ <;>
    first
    | (simp only [pfLT] at h1 h2 ⊢
       simp only [decide_eq_true_eq] at h1 h2 ⊢
       exact lt_trans h1 h2)
    | (try cases b1) <;> (try cases b2) <;> (try cases b3) <;> simp_all [pfLT]

theorem dv_trichotomy (u v : DataValue)
    (huv : typeOf u = typeOf v) (hsu : (typeOf u).isSome = true) :
    pyLT u v = true ∨ pyEq u v = true ∨ pyLT v u = true := by
  rcases u with a | f | s₁ <;> rcases v with b | g | s₂
  case int.int =>
    simp only [pyLT, pyEq, decide_eq_true_eq, beq_iff_eq]
    omega
  case int.float => rcases g with q | gb | _ <;> simp_all [typeOf]
  case int.str => simp_all [typeOf]
  case float.int => rcases f with q | fb | _ <;> simp_all [typeOf]
  case float.float =>
    have hf : f ≠ .nan := by rintro rfl; simp [typeOf] at hsu
    have hg : g ≠ .nan := by
      rintro rfl
      rw [huv] at hsu
      simp [typeOf] at hsu
    exact pf_trichotomy f g hf hg
  case float.str => rcases f with q | fb | _ <;> simp_all [typeOf]
  case str.int => simp_all [typeOf]
  case str.float => rcases g with q | gb | _ <;> simp_all [typeOf]
  case str.str =>
    simp only [pyLT, pyEq, decide_eq_true_eq, beq_iff_eq]
    exact lt_trichotomy s₁ s₂

theorem typeOf_int_inv (v : DataValue) (h : typeOf v = some .tInt) : ∃ n, v = .int n := by
  rcases v with a | g | t
  · exact ⟨a, rfl⟩
  · rcases g with q | b | _ <;> simp [typeOf] at h
  · simp [typeOf] at h

theorem typeOf_str_inv (v : DataValue) (h : typeOf v = some .tStr) : ∃ t, v = .str t := by
  rcases v with a | g | t
  · simp [typeOf] at h
  · rcases g with q | b | _ <;> simp [typeOf] at h
  · exact ⟨t, rfl⟩

theorem typeOf_float_inv (v : DataValue) (h : typeOf v = some .tFloat) :
    ∃ g, g ≠ PFloat.nan ∧ v = .float g := by
  rcases v with a | g | t
  · simp [typeOf] at h
  · rcases g with q | b | _
    · exact ⟨.num q, by simp, rfl⟩
    · exact ⟨.inf b, by simp, rfl⟩
    · simp [typeOf] at h
  · simp [typeOf] at h

theorem typeOf_float_eq (f : PFloat) (hf : f ≠ PFloat.nan) :
    typeOf (.float f) = some .tFloat := by
  rcases f with q | b | _ <;> simp_all [typeOf]

theorem dv_lt_trans (u v w : DataValue)
    (huv : typeOf u = typeOf v) (hvw : typeOf v = typeOf w)
    (hsu : (typeOf u).isSome = true)
    (h1 : pyLT u v = true) (h2 : pyLT v w = true) : pyLT u w = true := by
  cases u with
  | int a =>
    obtain ⟨b, rfl⟩ := typeOf_int_inv v (by rw [← huv]; rfl)
    obtain ⟨c, rfl⟩ := typeOf_int_inv w (by rw [← hvw, ← huv]; rfl)
    simp only [pyLT, decide_eq_true_eq] at h1 h2 ⊢
    omega
  | str s₁ =>
    obtain ⟨s₂, rfl⟩ := typeOf_str_inv v (by rw [← huv]; rfl)
    obtain ⟨s₃, rfl⟩ := typeOf_str_inv w (by rw [← hvw, ← huv]; rfl)
    simp only [pyLT, decide_eq_true_eq] at h1 h2 ⊢
    exact lt_trans h1 h2
  | float f =>
    have hf : f ≠ .nan := by rintro rfl; simp [typeOf] at hsu
    obtain ⟨g, hg, rfl⟩ := typeOf_float_inv v (by rw [← huv]; exact typeOf_float_eq f hf)
    obtain ⟨k, hk, rfl⟩ := typeOf_float_inv w
      (by rw [← hvw, ← huv]; exact typeOf_float_eq f hf)
    exact pf_lt_trans f g k h1 h2

/-! ### Lexicographic order on typed key tuples (C9) -/

theorem dv_eq_refl (u : DataValue) (hsu : (typeOf u).isSome = true) : pyEq u u = true :=
  (dv_eq_iff u u rfl hsu).mpr rfl

theorem tup_total (ts : List VType) (xs ys : List DataValue)
    (hx : TypedTup ts xs) (hy : TypedTup ts ys) :
    tupLE xs ys = true ∨ tupLE ys xs = true := by
  induction hx generalizing ys with
  | nil =>
    cases hy
    left
    rfl
  | @cons t a ts' xs' hta htail ih =>
    cases hy with
    | cons htb hty' =>
      next b ys' =>
      have huv : typeOf a = typeOf b := hta.trans htb.symm
      have hsu : (typeOf a).isSome = true := by rw [hta]; rfl
      rcases dv_trichotomy a b huv hsu with h | h | h
      · left; simp [tupLE, h]
      · have hab : a = b := (dv_eq_iff a b huv hsu).mp h
        subst hab
        rcases ih ys' hty' with h' | h'
        · left; simp [tupLE, h', dv_eq_refl a hsu]
        · right; simp [tupLE, h', dv_eq_refl a hsu]
      · right; simp [tupLE, h]

theorem tup_trans (ts : List VType) (xs ys zs : List DataValue)
    (hx : TypedTup ts xs) (hy : TypedTup ts ys) (hz : TypedTup ts zs)
    (h1 : tupLE xs ys = true) (h2 : tupLE ys zs = true) : tupLE xs zs = true := by
  induction hx generalizing ys zs with
  | nil =>
    cases hy
    cases hz
    rfl
  | @cons t a ts' xs' hta htail ih =>
    cases hy with
    | cons htb hty' =>
      next b ys' =>
      cases hz with
      | cons htc htz' =>
        next c zs' =>
        have hab : typeOf a = typeOf b := hta.trans htb.symm
        have hbc : typeOf b = typeOf c := htb.trans htc.symm
        have hsa : (typeOf a).isSome = true := by rw [hta]; rfl
        have hsb : (typeOf b).isSome = true := by rw [htb]; rfl
        simp only [tupLE, Bool.or_eq_true, Bool.and_eq_true] at h1 h2 ⊢
        rcases h1 with h1 | ⟨he1, hr1⟩
        · rcases h2 with h2 | ⟨he2, hr2⟩
          · exact Or.inl (dv_lt_trans a b c hab hbc hsa h1 h2)
          · have : b = c := (dv_eq_iff b c hbc hsb).mp he2
            subst this
            exact Or.inl h1
        · have : a = b := (dv_eq_iff a b hab hsa).mp he1
          subst this
          rcases h2 with h2 | ⟨he2, hr2⟩
          · exact Or.inl h2
          · exact Or.inr ⟨he2, ih ys' zs' hty' htz' hr1 hr2⟩

theorem tup_antisymm (ts : List VType) (xs ys : List DataValue)
    (hx : TypedTup ts xs) (hy : TypedTup ts ys)
    (h1 : tupLE xs ys = true) (h2 : tupLE ys xs = true) : xs = ys := by
  induction hx generalizing ys with
  | nil =>
    cases hy
    rfl
  | @cons t a ts' xs' hta htail ih =>
    cases hy with
    | cons htb hty' =>
      next b ys' =>
      have hab : typeOf a = typeOf b := hta.trans htb.symm
      have hsa : (typeOf a).isSome = true := by rw [hta]; rfl
      simp only [tupLE, Bool.or_eq_true, Bool.and_eq_true] at h1 h2
      rcases h1 with h1 | ⟨he1, hr1⟩
      · rcases h2 with h2 | ⟨he2, hr2⟩
        · have hlt := dv_lt_trans a b a hab hab.symm hsa h1 h2
          rw [dv_lt_irrefl a hsa] at hlt
          exact absurd hlt Bool.false_ne_true
        · have : b = a := (dv_eq_iff b a hab.symm (by rw [htb]; rfl)).mp he2
          subst this
          rw [dv_lt_irrefl b hsa] at h1
          exact absurd h1 Bool.false_ne_true
      · have : a = b := (dv_eq_iff a b hab hsa).mp he1
        subst this
        rcases h2 with h2 | ⟨he2, hr2⟩
        · rw [dv_lt_irrefl a hsa] at h2
          exact absurd h2 Bool.false_ne_true
        · rw [ih ys' hty' hr1 hr2]

/-! ### From column homogeneity to typed key tuples (C9) -/

/-- Under homogeneity, the key tuple of every record is typed by the column
kinds seen by any record. -/
theorem key_typed (recs : List (Dict DataValue)) {r s : Dict DataValue}
    (hr : r ∈ recs) (hs : s ∈ recs) :
    ∀ cols : List String, homogeneousOn cols recs →
      TypedTup (tysOf cols r) (recKey cols s) := by
  intro cols
  induction cols with
  | nil => intro _; exact List.Forall₂.nil
  | cons c cs ih =>
    intro hhom
    unfold tysOf recKey
    simp only [List.map_cons]
    refine List.Forall₂.cons ?_ (ih (fun c' hc' => hhom c' (List.mem_cons_of_mem c hc')))
    obtain ⟨hsome, hall⟩ := hhom c (List.mem_cons_self c cs) r hr
    have heq := hall s hs
    cases hty : cellTy r c with
    | none => rw [hty] at hsome; simp at hsome
    | some ty =>
      rw [hty] at heq
      cases hget : dget s c with
      | none =>
        unfold cellTy at heq
        rw [hget] at heq
        exact absurd heq.symm (by simp)
      | some v =>
        have hv : typeOf v = some ty := by
          unfold cellTy at heq
          rw [hget] at heq
          exact heq.symm
        simpa using hv

/-- Under homogeneity no record misses a column, so the KeyError guard of
write_data does not fire. -/
theorem hom_no_missing (cols : List String) (recs : List (Dict DataValue))
    (hhom : homogeneousOn cols recs) :
    recs.any (fun r => cols.any (fun c => (dget r c).isNone)) = false := by
  cases hv : recs.any (fun r => cols.any (fun c => (dget r c).isNone)) with
  | false => rfl
  | true =>
    obtain ⟨r, hrmem, hrany⟩ := List.any_eq_true.mp hv
    obtain ⟨c, hcmem, hc⟩ := List.any_eq_true.mp hrany
    obtain ⟨hsome, -⟩ := hhom c hcmem r hrmem
    unfold cellTy at hsome
    cases hget : dget r c with
    | none => rw [hget] at hsome; simp at hsome
    | some v => rw [hget] at hc; simp at hc

/-- Evaluation of write_data when both failure guards are clear. -/
theorem write_data_eval (d : OutputData) (h1 : ¬ columnsOf d = [])
    (hmiss : d.records.any (fun r => (columnsOf d).any fun c => (dget r c).isNone) = false) :
    (write_data d).1 = some (
      ("# " ++ (match d.command with | none => "None" | some c => c)) ::
      String.intercalate (" ") ((columnsOf d).map (fmtStr (maxWidth (columnsOf d)))) ::
      (sortAsc (fun r s => tupLE (recKey (columnsOf d) r) (recKey (columnsOf d) s))
        d.records).map
        (fun r => renderRow (maxWidth (columnsOf d)) (recKey (columnsOf d) r))) := by
  unfold write_data
  dsimp only
  rw [if_neg h1, if_neg (by rw [hmiss]; exact Bool.false_ne_true)]

/-- C9.  For a dataset with at least one column in which every record
supplies a value for every column and each column holds values of one
comparison kind (homogeneously typed), the Writer renders the records
sorted ascending by the full key tuple in column order (parameter columns
first, then the value columns not already among them, as built by
columnsOf), comparing with the natural ordering of the scalars; and the
rendered output is the same for every input order of the records. -/
theorem write_data_sorted_deterministic (d : OutputData)
    (h1 : ¬ columnsOf d = [])
    (h2 : homogeneousOn (columnsOf d) d.records) :
    (∃ recs', List.Perm recs' d.records ∧
      recs'.Pairwise (fun r s =>
        tupLE (recKey (columnsOf d) r) (recKey (columnsOf d) s) = true) ∧
      (write_data d).1 = some (
        ("# " ++ (match d.command with | none => "None" | some c => c)) ::
        String.intercalate (" ") ((columnsOf d).map (fmtStr (maxWidth (columnsOf d)))) ::
        recs'.map (fun r => renderRow (maxWidth (columnsOf d)) (recKey (columnsOf d) r)))) ∧
    (∀ recs₂, List.Perm recs₂ d.records →
      (write_data { d with records := recs₂ }).1 = (write_data d).1) := by
  have hmiss : d.records.any
      (fun r => (columnsOf d).any fun c => (dget r c).isNone) = false :=
    hom_no_missing _ _ h2
  have htot : ∀ a ∈ d.records, ∀ b ∈ d.records,
      tupLE (recKey (columnsOf d) a) (recKey (columnsOf d) b) = true ∨
      tupLE (recKey (columnsOf d) b) (recKey (columnsOf d) a) = true :=
    fun a ha b hb =>
      tup_total (tysOf (columnsOf d) a) _ _
        (key_typed d.records ha ha (columnsOf d) h2)
        (key_typed d.records ha hb (columnsOf d) h2)
  have htrans : ∀ x ∈ d.records, ∀ y ∈ d.records, ∀ z ∈ d.records,
      tupLE (recKey (columnsOf d) x) (recKey (columnsOf d) y) = true →
      tupLE (recKey (columnsOf d) y) (recKey (columnsOf d) z) = true →
      tupLE (recKey (columnsOf d) x) (recKey (columnsOf d) z) = true :=
    fun x hx y hy z hz =>
      tup_trans (tysOf (columnsOf d) x) _ _ _
        (key_typed d.records hx hx (columnsOf d) h2)
        (key_typed d.records hx hy (columnsOf d) h2)
        (key_typed d.records hx hz (columnsOf d) h2)
  constructor
  · refine ⟨sortAsc (fun r s =>
        tupLE (recKey (columnsOf d) r) (recKey (columnsOf d) s)) d.records,
      perm_sortAsc _ _, ?_, write_data_eval d h1 hmiss⟩
    exact pairwise_sortAsc _ d.records htot htrans
  · intro recs₂ hperm
    have h2' : homogeneousOn (columnsOf d) recs₂ := by
      intro c hc r hr
      obtain ⟨hsome, hall⟩ := h2 c hc r (hperm.mem_iff.mp hr)
      exact ⟨hsome, fun s hs => hall s (hperm.mem_iff.mp hs)⟩
    have hmiss₂ : recs₂.any
        (fun r => (columnsOf d).any fun c => (dget r c).isNone) = false :=
      hom_no_missing _ _ h2'
    have heval₂ := write_data_eval { d with records := recs₂ } h1 hmiss₂
    have heval₁ := write_data_eval d h1 hmiss
    have hcols : columnsOf { d with records := recs₂ } = columnsOf d := rfl
    rw [hcols] at heval₂
    dsimp only at heval₂
    rw [heval₂, heval₁]
    -- reduce both record renderings to the sorted key-tuple lists
    have hmap₂ := sortAsc_map (recKey (columnsOf d)) tupLE recs₂
    have hmap₁ := sortAsc_map (recKey (columnsOf d)) tupLE d.records
    -- the sorted tuple lists agree
    have htupsort :
        sortAsc tupLE (recs₂.map (recKey (columnsOf d))) =
        sortAsc tupLE (d.records.map (recKey (columnsOf d))) := by
      have hpermmap : List.Perm (recs₂.map (recKey (columnsOf d)))
          (d.records.map (recKey (columnsOf d))) := hperm.map _
      have hmem₂ : ∀ τ ∈ recs₂.map (recKey (columnsOf d)),
          ∃ r ∈ recs₂, τ = recKey (columnsOf d) r := by
        intro τ hτ
        obtain ⟨r, hr, hrfl⟩ := List.mem_map.mp hτ
        exact ⟨r, hr, hrfl.symm⟩
      have hmem₁ : ∀ τ ∈ d.records.map (recKey (columnsOf d)),
          ∃ r ∈ d.records, τ = recKey (columnsOf d) r := by
        intro τ hτ
        obtain ⟨r, hr, hrfl⟩ := List.mem_map.mp hτ
        exact ⟨r, hr, hrfl.symm⟩
      apply sorted_perm_eq tupLE
      · -- antisymmetry on the members of the first sorted list
        intro τ₁ hτ₁ τ₂ hτ₂ hle₁ hle₂
        obtain ⟨r₁, hr₁, rfl⟩ := hmem₂ τ₁ ((mem_sortAsc _ _ _).mp hτ₁)
        obtain ⟨r₂, hr₂, rfl⟩ := hmem₂ τ₂ ((mem_sortAsc _ _ _).mp hτ₂)
        exact tup_antisymm (tysOf (columnsOf d) r₁) _ _
          (key_typed recs₂ hr₁ hr₁ (columnsOf d) h2')
          (key_typed recs₂ hr₁ hr₂ (columnsOf d) h2') hle₁ hle₂
      · exact ((perm_sortAsc _ _).trans hpermmap).trans (perm_sortAsc _ _).symm
      · apply pairwise_sortAsc
        · intro τ₁ hτ₁ τ₂ hτ₂
          obtain ⟨r₁, hr₁, rfl⟩ := hmem₂ τ₁ hτ₁
          obtain ⟨r₂, hr₂, rfl⟩ := hmem₂ τ₂ hτ₂
          exact tup_total (tysOf (columnsOf d) r₁) _ _
            (key_typed recs₂ hr₁ hr₁ (columnsOf d) h2')
            (key_typed recs₂ hr₁ hr₂ (columnsOf d) h2')
        · intro τ₁ hτ₁ τ₂ hτ₂ τ₃ hτ₃
          obtain ⟨r₁, hr₁, rfl⟩ := hmem₂ τ₁ hτ₁
          obtain ⟨r₂, hr₂, rfl⟩ := hmem₂ τ₂ hτ₂
          obtain ⟨r₃, hr₃, rfl⟩ := hmem₂ τ₃ hτ₃
          exact tup_trans (tysOf (columnsOf d) r₁) _ _ _
            (key_typed recs₂ hr₁ hr₁ (columnsOf d) h2')
            (key_typed recs₂ hr₁ hr₂ (columnsOf d) h2')
            (key_typed recs₂ hr₁ hr₃ (columnsOf d) h2')
      · apply pairwise_sortAsc
        · intro τ₁ hτ₁ τ₂ hτ₂
          obtain ⟨r₁, hr₁, rfl⟩ := hmem₁ τ₁ hτ₁
          obtain ⟨r₂, hr₂, rfl⟩ := hmem₁ τ₂ hτ₂
          exact tup_total (tysOf (columnsOf d) r₁) _ _
            (key_typed d.records hr₁ hr₁ (columnsOf d) h2)
            (key_typed d.records hr₁ hr₂ (columnsOf d) h2)
        · intro τ₁ hτ₁ τ₂ hτ₂ τ₃ hτ₃
          obtain ⟨r₁, hr₁, rfl⟩ := hmem₁ τ₁ hτ₁
          obtain ⟨r₂, hr₂, rfl⟩ := hmem₁ τ₂ hτ₂
          obtain ⟨r₃, hr₃, rfl⟩ := hmem₁ τ₃ hτ₃
          exact tup_trans (tysOf (columnsOf d) r₁) _ _ _
            (key_typed d.records hr₁ hr₁ (columnsOf d) h2)
            (key_typed d.records hr₁ hr₂ (columnsOf d) h2)
            (key_typed d.records hr₁ hr₃ (columnsOf d) h2)
    -- turn the map over sorted records into a map over sorted tuples
    have hrows :
        (sortAsc (fun r s =>
            tupLE (recKey (columnsOf d) r) (recKey (columnsOf d) s)) recs₂).map
          (fun r => renderRow (maxWidth (columnsOf d)) (recKey (columnsOf d) r)) =
        (sortAsc (fun r s =>
            tupLE (recKey (columnsOf d) r) (recKey (columnsOf d) s)) d.records).map
          (fun r => renderRow (maxWidth (columnsOf d)) (recKey (columnsOf d) r)) := by
      have hcomp₂ :
          (sortAsc (fun r s =>
              tupLE (recKey (columnsOf d) r) (recKey (columnsOf d) s)) recs₂).map
            (fun r => renderRow (maxWidth (columnsOf d)) (recKey (columnsOf d) r)) =
          ((sortAsc (fun r s =>
              tupLE (recKey (columnsOf d) r) (recKey (columnsOf d) s)) recs₂).map
            (recKey (columnsOf d))).map (renderRow (maxWidth (columnsOf d))) := by
        rw [List.map_map]
        rfl
      have hcomp₁ :
          (sortAsc (fun r s =>
              tupLE (recKey (columnsOf d) r) (recKey (columnsOf d) s)) d.records).map
            (fun r => renderRow (maxWidth (columnsOf d)) (recKey (columnsOf d) r)) =
          ((sortAsc (fun r s =>
              tupLE (recKey (columnsOf d) r) (recKey (columnsOf d) s)) d.records).map
            (recKey (columnsOf d))).map (renderRow (maxWidth (columnsOf d))) := by
        rw [List.map_map]
        rfl
      rw [hcomp₂, hcomp₁, hmap₂, hmap₁, htupsort]
    rw [hrows]

/-- Witness for write_data_sorted_deterministic: records with n = 2 then
n = 1 render identically to their swapped input order. -/
theorem write_data_sorted_deterministic_witness :
    ¬ columnsOf (OutputData.mk (some ("c")) ["n"] ["v"]
        [[("n", DataValue.int 2), ("v", DataValue.int 20)],
         [("n", DataValue.int 1), ("v", DataValue.int 10)]]) = [] ∧
    homogeneousOn
      (columnsOf (OutputData.mk (some ("c")) ["n"] ["v"]
        [[("n", DataValue.int 2), ("v", DataValue.int 20)],
         [("n", DataValue.int 1), ("v", DataValue.int 10)]]))
      [[("n", DataValue.int 2), ("v", DataValue.int 20)],
       [("n", DataValue.int 1), ("v", DataValue.int 10)]] ∧
    (write_data (OutputData.mk (some ("c")) ["n"] ["v"]
        [[("n", DataValue.int 1), ("v", DataValue.int 10)],
         [("n", DataValue.int 2), ("v", DataValue.int 20)]])).1 =
      (write_data (OutputData.mk (some ("c")) ["n"] ["v"]
        [[("n", DataValue.int 2), ("v", DataValue.int 20)],
         [("n", DataValue.int 1), ("v", DataValue.int 10)]])).1 :=
  ⟨by decide, by decide,
   (write_data_sorted_deterministic
      (OutputData.mk (some ("c")) ["n"] ["v"]
        [[("n", DataValue.int 2), ("v", DataValue.int 20)],
         [("n", DataValue.int 1), ("v", DataValue.int 10)]])
      (by decide) (by decide)).2
     [[("n", DataValue.int 1), ("v", DataValue.int 10)],
      [("n", DataValue.int 2), ("v", DataValue.int 20)]]
     (List.Perm.swap
       [("n", DataValue.int 2), ("v", DataValue.int 20)]
       [("n", DataValue.int 1), ("v", DataValue.int 10)] [])⟩
